import Mathlib

/-!
Shallow embedding of `src/main.py` (VK Market catalog exporter).

Network effects are modelled by oracles:
* image probing (`requests.get(url).content`) by `fetch : String → Option Nat`
  giving the byte length of the payload at a URL, `none` standing for a raised
  `requests.exceptions.RequestException`;
* the paged market endpoint by `pages : Nat → Resp`, keyed by the `offset`
  parameter of the request (the only parameter that varies across the loop).

The stable Python sorts (`list.sort(key=...)` and `sorted(..., key=..., reverse=True)`)
are modelled by stable insertion sorts on a `Nat` key; they are structurally
recursive so that concrete runs reduce in the kernel.
-/

namespace VkMarket

/-- Constant `MAX_IMAGE_SIZE_MB = 6` from src/main.py. -/
def MAX_IMAGE_SIZE_MB : Nat := 6

/-- The size test `len(content) / (1024 * 1024) <= MAX_IMAGE_SIZE_MB` compares
the byte length against `6 MiB`; dividing an integer below `2^53` by the power
of two `2^20` is exact in IEEE double, so the float comparison coincides with
the integer comparison `bytes ≤ 6 * 1024 * 1024` for every realistic length. -/
def maxImageBytes : Nat := MAX_IMAGE_SIZE_MB * 1024 * 1024

/-- One entry of the `"sizes"` list of a photo: width, height and a URL. -/
structure SizeVariant where
  width : Nat
  height : Nat
  url : String
deriving DecidableEq

/-- One entry of the `"photos"` list of an item. -/
structure Photo where
  sizes : List SizeVariant
deriving DecidableEq

/-- A market item as used by the script: required fields `id`, `title`,
`description`, `category.name`, optional `price.amount` and `photos`. -/
structure Item where
  id : Nat
  title : String
  description : String
  categoryName : String
  price : Option String
  photos : Option (List Photo)
deriving DecidableEq

/-- Pixel area `x["height"] * x["width"]`, the sort key of `get_image_url`. -/
def area (s : SizeVariant) : Nat := s.height * s.width

/-- Stable insertion (descending by `key`): `x` goes after every element with a
strictly larger key and before equal-key elements that arrived later. -/
def insertKeyDesc (key : α → Nat) (x : α) : List α → List α
  | [] => [x]
  | y :: ys => if key x < key y then y :: insertKeyDesc key x ys else x :: y :: ys

/-- Model of the stable Python `sorted(l, key=key, reverse=True)`. -/
def sortKeyDesc (key : α → Nat) : List α → List α
  | [] => []
  | x :: xs => insertKeyDesc key x (sortKeyDesc key xs)

/-- Stable insertion (ascending by `key`). -/
def insertKeyAsc (key : α → Nat) (x : α) : List α → List α
  | [] => [x]
  | y :: ys => if key y < key x then y :: insertKeyAsc key x ys else x :: y :: ys

/-- Model of the stable Python `l.sort(key=key)`. -/
def sortKeyAsc (key : α → Nat) : List α → List α
  | [] => []
  | x :: xs => insertKeyAsc key x (sortKeyAsc key xs)

/-- The `for size in photo_sizes` loop of `get_image_url`: probe the URL of
each variant; on success return the URL if the measured size fits the ceiling, otherwise
(or on a request exception) continue with the remaining variants. -/
def firstFitUrl (fetch : String → Option Nat) : List SizeVariant → Option String
  | [] => none
  | s :: rest =>
    match fetch s.url with
    | some n => if n ≤ maxImageBytes then some s.url else firstFitUrl fetch rest
    | none => firstFitUrl fetch rest

/-- Function `get_image_url(photos, index)` from src/main.py. -/
def get_image_url (fetch : String → Option Nat) (photos : List Photo) (index : Nat) :
    Option String :=
  if photos.isEmpty ∨ photos.length ≤ index then none
  else
    match photos[index]? with
    | none => none
    | some photo => firstFitUrl fetch (sortKeyDesc area photo.sizes)

/-- Function `get_primary_image_url(item)` from src/main.py. -/
def get_primary_image_url (fetch : String → Option Nat) (item : Item) : Option String :=
  match item.photos with
  | none => none
  | some ps => get_image_url fetch ps 0

/-- Function `get_secondary_image_url(item)` from src/main.py. -/
def get_secondary_image_url (fetch : String → Option Nat) (item : Item) : Option String :=
  match item.photos with
  | none => none
  | some ps => if ps.length < 2 then none else get_image_url fetch ps 1

/-- Function `map_category(category)`: `cm.mapping.get(category, category)`.
The table `category_map.mapping` lives in a module outside src/main.py, so it
is a parameter `mapping : String → Option String`. -/
def map_category (mapping : String → Option String) (category : String) : String :=
  (mapping category).getD category

/-- A spreadsheet cell value as written by `worksheet.cell(..., value=…)`. -/
inductive CellVal where
  | num (n : Nat)
  | str (s : String)
deriving DecidableEq

/-- A cell: `none` models a cell left empty (the Python value `None`). -/
abbrev Cell := Option CellVal

/-- The fixed header titles of `create_excel_file`. -/
def headers : List String :=
  ["ID", "Категория", "Название", "Цена", "Описание",
   "Основное изображение", "Дополнительное изображение"]

/-- One data row of `create_excel_file` (columns 1–7 of a row `row_num ≥ 2`). -/
def itemRow (mapping : String → Option String) (fetch : String → Option Nat)
    (item : Item) : List Cell :=
  [some (.num item.id),
   some (.str (map_category mapping item.categoryName)),
   some (.str item.title),
   some (.str
     (let price := item.price.getD ""
      if price = "" then "" else price.dropRight 2)),
   some (.str item.description),
   (get_primary_image_url fetch item).map .str,
   (get_secondary_image_url fetch item).map .str]

/-- The grid of cells `create_excel_file` writes: the header row, then one row
per item in list order. -/
def create_excel_file (mapping : String → Option String) (fetch : String → Option Nat)
    (items : List Item) : List (List Cell) :=
  (headers.map (fun h => some (.str h))) :: items.map (itemRow mapping fetch)

/-- One response of the market endpoint at a given offset. -/
inductive Resp where
  | fault
  | apiError (msg : String)
  | ok (count : Nat) (items : List Item)
deriving DecidableEq

/-- A response that makes the loop `break` before touching `items`. -/
def Resp.isAbort : Resp → Bool
  | .fault => true
  | .apiError _ => true
  | .ok _ _ => false

/-- Result of a fetch run: the accumulated `all_items` and the log of the
`offset` values of the requests issued, in order. -/
structure FetchResult where
  items : List Item
  requests : List Nat
deriving DecidableEq

/-- The `while True` loop of `get_all_vk_market_items` after the first
successful page fixed `total_items = total`. The `fuel` parameter bounds the
number of remaining iterations; `fetchRest_fuel_indep` proves that any fuel of
at least `total - acc.length` (and at least 1) gives the same result, so the
bound used below never cuts a run short. -/
def fetchRest (pages : Nat → Resp) :
    Nat → List Item → Nat → Nat → FetchResult
  | 0, acc, _, _ => ⟨acc, []⟩
  | fuel + 1, acc, offset, total =>
    match pages offset with
    | .fault => ⟨acc, [offset]⟩
    | .apiError _ => ⟨acc, [offset]⟩
    | .ok _ items =>
      if items.isEmpty then ⟨acc, [offset]⟩
      else if total ≤ acc.length + items.length then ⟨acc ++ items, [offset]⟩
      else
        let r := fetchRest pages fuel (acc ++ items) (offset + items.length) total
        ⟨r.items, offset :: r.requests⟩

/-- The first iteration of the loop (`total_items is None`): it either breaks
or fixes `total_items` and continues via `fetchRest`. -/
def fetchFirst (pages : Nat → Resp) : FetchResult :=
  match pages 0 with
  | .fault => ⟨[], [0]⟩
  | .apiError _ => ⟨[], [0]⟩
  | .ok count items =>
    if items.isEmpty then ⟨[], [0]⟩
    else if count ≤ items.length then ⟨items, [0]⟩
    else
      let r := fetchRest pages count items items.length count
      ⟨r.items, 0 :: r.requests⟩

/-- The final `all_items.sort(key=lambda x: x["id"])`. -/
def sortItemsById (l : List Item) : List Item := sortKeyAsc Item.id l

/-- Function `get_all_vk_market_items`: run the pagination loop, then sort by id. -/
def get_all_vk_market_items (pages : Nat → Resp) : List Item :=
  sortItemsById (fetchFirst pages).items

/-- The item lists of the pages the loop actually consumes, in order: it stops
at the first fault/error/empty page and ends with the page that reaches the
reported total. -/
def processedRest (pages : Nat → Resp) :
    Nat → Nat → Nat → Nat → List (List Item)
  | 0, _, _, _ => []
  | fuel + 1, accLen, offset, total =>
    match pages offset with
    | .fault => []
    | .apiError _ => []
    | .ok _ items =>
      if items.isEmpty then []
      else if total ≤ accLen + items.length then [items]
      else
        items ::
          processedRest pages fuel (accLen + items.length) (offset + items.length) total

/-- The item lists of all pages a whole run consumes. -/
def processedPages (pages : Nat → Resp) : List (List Item) :=
  match pages 0 with
  | .fault => []
  | .apiError _ => []
  | .ok count items =>
    if items.isEmpty then []
    else if count ≤ items.length then [items]
    else items :: processedRest pages count items.length items.length count

/-- An item carrying only an id, for concrete endpoint scenarios. -/
def bareItem (n : Nat) : Item := ⟨n, "", "", "", none, none⟩

/-- The endpoint behaviour of the pagination scenario: a catalog of 250 items,
every page returning the full remaining count up to the page size 100. -/
def scenarioPages (offset : Nat) : Resp :=
  .ok 250 ((List.range (min 100 (250 - offset))).map bareItem)

/-- A concrete probe oracle: the URL `"big"` measures 7000000 bytes, every
other URL measures 100 bytes. -/
def fetchW : String → Option Nat :=
  fun u => if u = "big" then some 7000000 else some 100

/-- A concrete photo with an oversized large variant and a fitting small one. -/
def photoW : Photo := ⟨[⟨10, 10, "big"⟩, ⟨2, 2, "small"⟩]⟩

/-- A concrete three-item endpoint behaviour delivering ids 5, 1 on the first
page and 3 on the second. -/
def pagesW (offset : Nat) : Resp :=
  if offset = 0 then .ok 3 [bareItem 5, bareItem 1] else .ok 3 [bareItem 3]

/- ------------------------------------------------------------------ -/
/- Sorting lemmas for the stable insertion sorts.                      -/
/- ------------------------------------------------------------------ -/

theorem perm_insertKeyAsc (key : α → Nat) (x : α) (l : List α) :
    List.Perm (insertKeyAsc key x l) (x :: l) := by
  induction l with
  | nil => rfl
  | cons y ys ih =>
    simp only [insertKeyAsc]
    split
    · exact (ih.cons y).trans (List.Perm.swap x y ys)
    · rfl

theorem perm_sortKeyAsc (key : α → Nat) (l : List α) :
    List.Perm (sortKeyAsc key l) l := by
  induction l with
  | nil => rfl
  | cons x xs ih => exact (perm_insertKeyAsc key x (sortKeyAsc key xs)).trans (ih.cons x)

theorem pairwise_insertKeyAsc (key : α → Nat) (x : α) (l : List α)
    (h : l.Pairwise (fun a b => key a ≤ key b)) :
    (insertKeyAsc key x l).Pairwise (fun a b => key a ≤ key b) := by
  induction l with
  | nil => simp [insertKeyAsc]
  | cons y ys ih =>
    rw [List.pairwise_cons] at h
    obtain ⟨hy, hys⟩ := h
    simp only [insertKeyAsc]
    split
    · rename_i hlt
      rw [List.pairwise_cons]
      refine ⟨?_, ih hys⟩
      intro z hz
      rcases List.mem_cons.mp ((perm_insertKeyAsc key x ys).mem_iff.mp hz) with rfl | hz
      · omega
      · exact hy z hz
    · rename_i hge
      rw [List.pairwise_cons]
      refine ⟨?_, List.pairwise_cons.mpr ⟨hy, hys⟩⟩
      intro z hz
      rcases List.mem_cons.mp hz with rfl | hz
      · omega
      · exact le_trans (by omega) (hy z hz)

theorem pairwise_sortKeyAsc (key : α → Nat) (l : List α) :
    (sortKeyAsc key l).Pairwise (fun a b => key a ≤ key b) := by
  induction l with
  | nil => simp [sortKeyAsc]
  | cons x xs ih => exact pairwise_insertKeyAsc key x (sortKeyAsc key xs) ih

theorem perm_insertKeyDesc (key : α → Nat) (x : α) (l : List α) :
    List.Perm (insertKeyDesc key x l) (x :: l) := by
  induction l with
  | nil => rfl
  | cons y ys ih =>
    simp only [insertKeyDesc]
    split
    · exact (ih.cons y).trans (List.Perm.swap x y ys)
    · rfl

theorem perm_sortKeyDesc (key : α → Nat) (l : List α) :
    List.Perm (sortKeyDesc key l) l := by
  induction l with
  | nil => rfl
  | cons x xs ih => exact (perm_insertKeyDesc key x (sortKeyDesc key xs)).trans (ih.cons x)

theorem pairwise_insertKeyDesc (key : α → Nat) (x : α) (l : List α)
    (h : l.Pairwise (fun a b => key b ≤ key a)) :
    (insertKeyDesc key x l).Pairwise (fun a b => key b ≤ key a) := by
  induction l with
  | nil => simp [insertKeyDesc]
  | cons y ys ih =>
    rw [List.pairwise_cons] at h
    obtain ⟨hy, hys⟩ := h
    simp only [insertKeyDesc]
    split
    · rename_i hlt
      rw [List.pairwise_cons]
      refine ⟨?_, ih hys⟩
      intro z hz
      rcases List.mem_cons.mp ((perm_insertKeyDesc key x ys).mem_iff.mp hz) with rfl | hz
      · omega
      · exact hy z hz
    · rename_i hge
      rw [List.pairwise_cons]
      refine ⟨?_, List.pairwise_cons.mpr ⟨hy, hys⟩⟩
      intro z hz
      rcases List.mem_cons.mp hz with rfl | hz
      · omega
      · exact le_trans (hy z hz) (by omega)

theorem pairwise_sortKeyDesc (key : α → Nat) (l : List α) :
    (sortKeyDesc key l).Pairwise (fun a b => key b ≤ key a) := by
  induction l with
  | nil => simp [sortKeyDesc]
  | cons x xs ih => exact pairwise_insertKeyDesc key x (sortKeyDesc key xs) ih

/- ------------------------------------------------------------------ -/
/- Image resolution.                                                   -/
/- ------------------------------------------------------------------ -/

theorem get_image_url_eq (fetch : String → Option Nat) (photos : List Photo)
    (index : Nat) (photo : Photo) (hp : photos[index]? = some photo) :
    get_image_url fetch photos index = firstFitUrl fetch (sortKeyDesc area photo.sizes) := by
  have hlen : index < photos.length := by
    rcases List.getElem?_eq_some.mp hp with ⟨h, _⟩
    exact h
  have hcond : ¬(photos.isEmpty = true ∨ photos.length ≤ index) := by
    rintro (h | h)
    · rw [List.isEmpty_iff] at h
      subst h
      simp at hlen
    · omega
  rw [get_image_url, if_neg hcond, hp]

theorem firstFitUrl_spec (fetch : String → Option Nat) :
    ∀ l : List SizeVariant, l.Pairwise (fun a b => area b ≤ area a) →
      firstFitUrl fetch l = none ∨
      ∃ v, v ∈ l ∧ firstFitUrl fetch l = some v.url ∧
        (∃ n, fetch v.url = some n ∧ n ≤ maxImageBytes) ∧
        ∀ w ∈ l, (∃ m, fetch w.url = some m ∧ m ≤ maxImageBytes) → area w ≤ area v := by
  intro l
  induction l with
  | nil => intro _; exact Or.inl rfl
  | cons s rest ih =>
    intro h
    rw [List.pairwise_cons] at h
    obtain ⟨hs, hrest⟩ := h
    by_cases hfit : ∃ n, fetch s.url = some n ∧ n ≤ maxImageBytes
    · obtain ⟨n, hn, hle⟩ := hfit
      right
      refine ⟨s, List.mem_cons_self s rest, ?_, ⟨n, hn, hle⟩, ?_⟩
      · simp [firstFitUrl, hn, hle]
      · intro w hw _
        rcases List.mem_cons.mp hw with rfl | hw
        · exact le_refl _
        · exact hs w hw
    · have hskip : firstFitUrl fetch (s :: rest) = firstFitUrl fetch rest := by
        simp only [firstFitUrl]
        cases hc : fetch s.url with
        | none => rfl
        | some n =>
          have hn : ¬ n ≤ maxImageBytes := fun hle => hfit ⟨n, hc, hle⟩
          simp [hn]
      rcases ih hrest with hnone | ⟨v, hv, hres, hsat, hmax⟩
      · exact Or.inl (hskip.trans hnone)
      · right
        refine ⟨v, List.mem_cons_of_mem s hv, hskip.trans hres, hsat, ?_⟩
        intro w hw hwsat
        rcases List.mem_cons.mp hw with rfl | hw
        · exact absurd hwsat hfit
        · exact hmax w hw hwsat

theorem firstFitUrl_none (fetch : String → Option Nat) :
    ∀ l : List SizeVariant,
      (∀ v ∈ l, ∀ n, fetch v.url = some n → maxImageBytes < n) →
      firstFitUrl fetch l = none := by
  intro l
  induction l with
  | nil => intro _; rfl
  | cons s rest ih =>
    intro h
    have hrest : firstFitUrl fetch rest = none :=
      ih fun v hv => h v (List.mem_cons_of_mem s hv)
    simp only [firstFitUrl]
    cases hc : fetch s.url with
    | none => exact hrest
    | some n =>
      have hn : ¬ n ≤ maxImageBytes := by
        have := h s (List.mem_cons_self s rest) n hc
        omega
      simp [hn, hrest]

/-- C1: for a valid slot of a non-empty photo list, `get_image_url` returns
either `none` or the URL of a variant of the selected photo whose measured
byte size is at most the ceiling, and the pixel area of that variant is maximal
among all variants whose measured size satisfies the ceiling. -/
theorem image_resolution_largest_fit (fetch : String → Option Nat)
    (photos : List Photo) (index : Nat) (photo : Photo)
    (hp : photos[index]? = some photo) :
    get_image_url fetch photos index = none ∨
    ∃ v, v ∈ photo.sizes ∧ get_image_url fetch photos index = some v.url ∧
      (∃ n, fetch v.url = some n ∧ n ≤ maxImageBytes) ∧
      ∀ w ∈ photo.sizes, (∃ m, fetch w.url = some m ∧ m ≤ maxImageBytes) →
        area w ≤ area v := by
  rw [get_image_url_eq fetch photos index photo hp]
  have hperm : List.Perm (sortKeyDesc area photo.sizes) photo.sizes :=
    perm_sortKeyDesc area photo.sizes
  rcases firstFitUrl_spec fetch (sortKeyDesc area photo.sizes)
      (pairwise_sortKeyDesc area photo.sizes) with hnone | ⟨v, hv, hres, hsat, hmax⟩
  · exact Or.inl hnone
  · right
    exact ⟨v, hperm.mem_iff.mp hv, hres, hsat,
      fun w hw hws => hmax w (hperm.mem_iff.mpr hw) hws⟩

/-- Witness for C1 at a concrete input: one photo whose 10×10 variant measures
7000000 bytes (oversized) and whose 2×2 variant measures 100 bytes. -/
theorem image_resolution_largest_fit_witness :
    ([photoW] : List Photo)[0]? = some photoW ∧
    (get_image_url fetchW [photoW] 0 = none ∨
     ∃ v, v ∈ photoW.sizes ∧ get_image_url fetchW [photoW] 0 = some v.url ∧
       (∃ n, fetchW v.url = some n ∧ n ≤ maxImageBytes) ∧
       ∀ w ∈ photoW.sizes, (∃ m, fetchW w.url = some m ∧ m ≤ maxImageBytes) →
         area w ≤ area v) :=
  ⟨rfl, image_resolution_largest_fit fetchW [photoW] 0 photoW rfl⟩

/-- C2: if every variant of the selected photo is oversized whenever its
retrieval succeeds (which covers both all-oversized and all-failing variants),
`get_image_url` returns `none` rather than any fallback URL. -/
theorem image_resolution_all_oversized_none (fetch : String → Option Nat)
    (photos : List Photo) (index : Nat) (photo : Photo)
    (hp : photos[index]? = some photo)
    (hover : ∀ v ∈ photo.sizes, ∀ n, fetch v.url = some n → maxImageBytes < n) :
    get_image_url fetch photos index = none := by
  rw [get_image_url_eq fetch photos index photo hp]
  refine firstFitUrl_none fetch (sortKeyDesc area photo.sizes) ?_
  intro v hv
  exact hover v ((perm_sortKeyDesc area photo.sizes).mem_iff.mp hv)

/-- Witness for C2: with every URL measuring 7000000 bytes, the slot resolves
to `none`. -/
theorem image_resolution_all_oversized_none_witness :
    ([photoW] : List Photo)[0]? = some photoW ∧
    get_image_url (fun _ => some 7000000) [photoW] 0 = none :=
  ⟨rfl, image_resolution_all_oversized_none (fun _ => some 7000000) [photoW] 0 photoW rfl
    (by decide)⟩

/-- C8: a missing, empty or too-short photo list resolves to an absent image
without any error: `get_image_url` yields `none` whenever the list is shorter
than `index + 1`; both resolvers yield `none` when `photos` is absent; and the
secondary resolver yields `none` whenever the item has fewer than two photos. -/
theorem short_photo_list_resolves_none :
    (∀ (fetch : String → Option Nat) (photos : List Photo) (index : Nat),
       photos.length ≤ index → get_image_url fetch photos index = none) ∧
    (∀ (fetch : String → Option Nat) (item : Item), item.photos = none →
       get_primary_image_url fetch item = none ∧
       get_secondary_image_url fetch item = none) ∧
    (∀ (fetch : String → Option Nat) (item : Item) (ps : List Photo),
       item.photos = some ps → ps.length < 2 →
       get_secondary_image_url fetch item = none) := by
  refine ⟨?_, ?_, ?_⟩
  · intro fetch photos index h
    rw [get_image_url, if_pos (Or.inr h)]
  · intro fetch item h
    constructor
    · rw [get_primary_image_url, h]
    · rw [get_secondary_image_url, h]
  · intro fetch item ps h hlt
    rw [get_secondary_image_url, h]
    simp [hlt]

/-- Witness for C8: an item with a single photo has an absent secondary image,
an item without photos has both images absent, and an empty photo list
resolves slot 0 to `none`. -/
theorem short_photo_list_resolves_none_witness :
    get_image_url fetchW [] 0 = none ∧
    get_primary_image_url fetchW (bareItem 1) = none ∧
    get_secondary_image_url fetchW { bareItem 2 with photos := some [photoW] } = none :=
  ⟨(short_photo_list_resolves_none.1 fetchW [] 0 (by decide)),
   (short_photo_list_resolves_none.2.1 fetchW (bareItem 1) rfl).1,
   (short_photo_list_resolves_none.2.2 fetchW { bareItem 2 with photos := some [photoW] }
     [photoW] rfl (by decide))⟩

/- ------------------------------------------------------------------ -/
/- Export (create_excel_file).                                         -/
/- ------------------------------------------------------------------ -/

/-- C7: the price column (column 4, index 3) carries the raw price string with
its last two characters removed, and the empty string when the price is
absent; in particular `"150000"` exports as `"1500"`. -/
theorem price_column_strips_suffix :
    (∀ (mapping : String → Option String) (fetch : String → Option Nat) (item : Item),
       (itemRow mapping fetch item)[3]? =
         some (some (.str (match item.price with
                           | some p => p.dropRight 2
                           | none => "")))) ∧
    (itemRow (fun _ => none) (fun _ => none)
        { bareItem 1 with price := some "150000" })[3]? =
      some (some (.str "1500")) := by
  constructor
  · intro mapping fetch item
    have h0 : (itemRow mapping fetch item)[3]? =
        some (some (.str
          (let price := item.price.getD ""
           if price = "" then "" else price.dropRight 2))) := rfl
    rw [h0]
    cases hp : item.price with
    | none => rfl
    | some p =>
      simp only [Option.getD_some]
      by_cases hpe : p = ""
      · subst hpe
        decide
      · simp [hpe]
  · decide

/-- C9: the exported grid is exactly one header row of the 7 fixed titles
followed by one 7-cell data row per item in list order, so its row count is
the item count plus one. -/
theorem export_rows_shape (mapping : String → Option String)
    (fetch : String → Option Nat) (items : List Item) :
    create_excel_file mapping fetch items =
      (headers.map fun h => some (.str h)) :: items.map (itemRow mapping fetch) ∧
    (create_excel_file mapping fetch items).length = items.length + 1 ∧
    ∀ row ∈ create_excel_file mapping fetch items, row.length = 7 := by
  refine ⟨rfl, by simp [create_excel_file], ?_⟩
  intro row hrow
  rcases List.mem_cons.mp hrow with rfl | hrow
  · rfl
  · rcases List.mem_map.mp hrow with ⟨item, _, rfl⟩
    rfl

/-- Witness for C9: on a one-item catalog the grid has 2 rows and the data row
has 7 cells. -/
theorem export_rows_shape_witness :
    (create_excel_file (fun _ => none) (fun _ => none) [bareItem 1]).length = 1 + 1 ∧
    (itemRow (fun _ => none) (fun _ => none) (bareItem 1)).length = 7 :=
  ⟨(export_rows_shape (fun _ => none) (fun _ => none) [bareItem 1]).2.1,
   (export_rows_shape (fun _ => none) (fun _ => none) [bareItem 1]).2.2
     (itemRow (fun _ => none) (fun _ => none) (bareItem 1)) (by decide)⟩

/- ------------------------------------------------------------------ -/
/- Pagination (get_all_vk_market_items).                               -/
/- ------------------------------------------------------------------ -/

theorem length_sortItemsById (l : List Item) : (sortItemsById l).length = l.length :=
  (perm_sortKeyAsc Item.id l).length_eq

/-- C6: the pagination loop terminates within `total - acc.length` iterations:
any two fuel bounds at least that large (and at least 1, so that the pending
iteration runs) give the same run, since every non-final iteration strictly
grows the accumulation toward the total fixed on the first page. -/
theorem fetch_loop_terminates (pages : Nat → Resp) (total : Nat) :
    ∀ f1 f2 : Nat, ∀ (acc : List Item) (offset : Nat),
      total ≤ acc.length + f1 → 1 ≤ f1 →
      total ≤ acc.length + f2 → 1 ≤ f2 →
      fetchRest pages f1 acc offset total = fetchRest pages f2 acc offset total := by
  intro f1
  induction f1 with
  | zero => intro f2 acc offset h1 h2 h3 h4; omega
  | succ g ih =>
    intro f2 acc offset h1 h2 h3 h4
    obtain ⟨f2g, rfl⟩ : ∃ k, f2 = k + 1 := ⟨f2 - 1, by omega⟩
    simp only [fetchRest]
    cases hpage : pages offset with
    | fault => rfl
    | apiError msg => rfl
    | ok c items =>
      dsimp only
      by_cases hempty : items.isEmpty
      · rw [if_pos hempty, if_pos hempty]
      · rw [if_neg hempty, if_neg hempty]
        by_cases htot : total ≤ acc.length + items.length
        · rw [if_pos htot, if_pos htot]
        · rw [if_neg htot, if_neg htot]
          have hlen : 1 ≤ items.length := by
            cases items with
            | nil => simp at hempty
            | cons a as => simp
          have hrec := ih f2g (acc ++ items) (offset + items.length)
            (by rw [List.length_append]; omega) (by omega)
            (by rw [List.length_append]; omega) (by omega)
          simp only [hrec]

/-- Witness for C6: on the concrete two-page endpoint any sufficient fuel
bound gives the same run. -/
theorem fetch_loop_terminates_witness :
    fetchRest pagesW 5 [] 0 3 = fetchRest pagesW 3 [] 0 3 :=
  fetch_loop_terminates pagesW 3 5 3 [] 0 (by decide) (by decide) (by decide) (by decide)

/-- C4: a transport fault or an API-level error response at any page makes the
iteration return the accumulation from the earlier pages unchanged (and log
just that one request); an empty page does the same; when the very first page
aborts, the whole fetch returns the empty list rather than failing. -/
theorem abort_keeps_accumulated :
    (∀ (pages : Nat → Resp) (fuel : Nat) (acc : List Item) (offset total : Nat),
       (pages offset).isAbort = true →
       fetchRest pages (fuel + 1) acc offset total = ⟨acc, [offset]⟩) ∧
    (∀ (pages : Nat → Resp) (fuel : Nat) (acc : List Item) (offset total c : Nat),
       pages offset = .ok c [] →
       fetchRest pages (fuel + 1) acc offset total = ⟨acc, [offset]⟩) ∧
    (∀ pages : Nat → Resp, (pages 0).isAbort = true →
       fetchFirst pages = ⟨[], [0]⟩ ∧ get_all_vk_market_items pages = []) := by
  refine ⟨?_, ?_, ?_⟩
  · intro pages fuel acc offset total habort
    simp only [fetchRest]
    cases hpage : pages offset with
    | fault => rfl
    | apiError msg => rfl
    | ok c items => rw [hpage] at habort; simp [Resp.isAbort] at habort
  · intro pages fuel acc offset total c hpage
    simp only [fetchRest]
    rw [hpage]
    rfl
  · intro pages habort
    have hfirst : fetchFirst pages = ⟨[], [0]⟩ := by
      rw [fetchFirst]
      cases hpage : pages 0 with
      | fault => rfl
      | apiError msg => rfl
      | ok c items => rw [hpage] at habort; simp [Resp.isAbort] at habort
    exact ⟨hfirst, by rw [get_all_vk_market_items, hfirst]; rfl⟩

/-- Witness for C4: an endpoint whose every response is an API error yields an
empty result, and a mid-run fault preserves the accumulation. -/
theorem abort_keeps_accumulated_witness :
    fetchRest (fun _ => Resp.fault) 4 [bareItem 9] 7 50 = ⟨[bareItem 9], [7]⟩ ∧
    get_all_vk_market_items (fun _ => Resp.apiError "boom") = [] :=
  ⟨abort_keeps_accumulated.1 (fun _ => Resp.fault) 3 [bareItem 9] 7 50 (by decide),
   (abort_keeps_accumulated.2.2 (fun _ => Resp.apiError "boom") (by decide)).2⟩

set_option maxRecDepth 40000 in
/-- C3: on a 250-item catalog whose pages each return the full remaining count
up to the page size 100, exactly 3 requests are issued, at offsets 0, 100 and
200 (each offset advanced by the number of items the prior page returned), and
the accumulated count is 250. -/
theorem pagination_scenario :
    (fetchFirst scenarioPages).requests = [0, 100, 200] ∧
    (fetchFirst scenarioPages).items.length = 250 ∧
    (get_all_vk_market_items scenarioPages).length = 250 := by
  refine ⟨by decide, by decide, ?_⟩
  have h : get_all_vk_market_items scenarioPages =
      sortKeyAsc Item.id (fetchFirst scenarioPages).items := rfl
  rw [h, (perm_sortKeyAsc Item.id (fetchFirst scenarioPages).items).length_eq]
  decide

/-- C5: the fetched result is always sorted by item id ascending, and when
the ids are pairwise distinct (as catalog ids are) the order is strictly
ascending. -/
theorem fetched_items_sorted_by_id (pages : Nat → Resp) :
    (get_all_vk_market_items pages).Pairwise (fun a b => a.id ≤ b.id) ∧
    ((get_all_vk_market_items pages).Pairwise (fun a b => a.id ≠ b.id) →
      (get_all_vk_market_items pages).Pairwise (fun a b => a.id < b.id)) := by
  have hs : (get_all_vk_market_items pages).Pairwise (fun a b => a.id ≤ b.id) :=
    pairwise_sortKeyAsc Item.id (fetchFirst pages).items
  refine ⟨hs, fun hne => ?_⟩
  exact (hs.and hne).imp fun h => lt_of_le_of_ne h.1 h.2

/-- Witness for C5: the ids 5, 1 and 3 arriving across two pages come out in
strictly ascending order. -/
theorem fetched_items_sorted_by_id_witness :
    (get_all_vk_market_items pagesW).Pairwise (fun a b => a.id < b.id) :=
  (fetched_items_sorted_by_id pagesW).2 (by decide)

theorem fetchRest_items_eq (pages : Nat → Resp) (total : Nat) :
    ∀ (fuel : Nat) (acc : List Item) (offset : Nat),
      (fetchRest pages fuel acc offset total).items =
        acc ++ (processedRest pages fuel acc.length offset total).flatten := by
  intro fuel
  induction fuel with
  | zero => intro acc offset; simp [fetchRest, processedRest]
  | succ g ih =>
    intro acc offset
    simp only [fetchRest, processedRest]
    cases hpage : pages offset with
    | fault => simp
    | apiError msg => simp
    | ok c items =>
      dsimp only
      by_cases hempty : items.isEmpty
      · rw [if_pos hempty, if_pos hempty]; simp
      · rw [if_neg hempty, if_neg hempty]
        by_cases htot : total ≤ acc.length + items.length
        · rw [if_pos htot, if_pos htot]; simp
        · rw [if_neg htot, if_neg htot]
          have hrec := ih (acc ++ items) (offset + items.length)
          rw [List.length_append] at hrec
          simp only [hrec, List.flatten_cons, List.append_assoc]

/-- C10: the fetched output is exactly the id-sort — hence a permutation —
of the concatenation of the item lists of the pages the run consumed, so no
received item is dropped or duplicated and the final page is kept in full even
when it pushes the count past the reported total. -/
theorem fetch_result_is_permutation_of_pages (pages : Nat → Resp) :
    get_all_vk_market_items pages = sortItemsById (processedPages pages).flatten ∧
    List.Perm (get_all_vk_market_items pages) (processedPages pages).flatten := by
  have hitems : (fetchFirst pages).items = (processedPages pages).flatten := by
    rw [fetchFirst, processedPages]
    cases hpage : pages 0 with
    | fault => simp
    | apiError msg => simp
    | ok c items =>
      dsimp only
      by_cases hempty : items.isEmpty
      · rw [if_pos hempty, if_pos hempty]; simp
      · rw [if_neg hempty, if_neg hempty]
        by_cases htot : c ≤ items.length
        · rw [if_pos htot, if_pos htot]; simp
        · rw [if_neg htot, if_neg htot]
          have hrec := fetchRest_items_eq pages c c items items.length
          simp only [List.flatten_cons]
          exact hrec
  constructor
  · rw [get_all_vk_market_items, hitems]
  · rw [get_all_vk_market_items, hitems]
    exact perm_sortKeyAsc Item.id (processedPages pages).flatten

end VkMarket
